import Mathlib

/-!
# Verification of the `Prepo.py` preprocessing pipeline

Shallow embedding of the car-listing preprocessing pipeline in `Prepo.py`:
`load_data` → `clean_data` → `feature_engineering` → `encode_categorical`
→ `export_train_data`, orchestrated by `main`.

The data model is the pandas `DataFrame`, embedded as a `Table`: an ordered
list of column names together with a list of rows, each row an association
list from column name to `Value`.  A `Value` is a rational number (pandas
numerics; `.missing` doubles as the NaN/null marker, matching pandas where
NaN both marks missingness and makes comparisons return `False`), a string,
or one of two symbolic results of `np.log1p`: `logOf q` stands for the real
number `ln (1 + q)` (for `q > -1`), and `neginf` for `-∞` (`np.log1p` at
exactly `-1`).  `np.log1p` below `-1` yields NaN (with a warning, not a
raised exception), embedded as `.missing`.

External effects are embedded explicitly: MongoDB / the CSV file system are
oracles passed to `load_data`, the external cleaner `run_filters` is an
abstract fallible function passed to the orchestrator, and the in-place
pandas mutations inside `feature_engineering` are modelled by a heap of
dataframes (`Heap`) with explicit allocation (`df.copy()`, filtering,
`pd.concat`) and in-place writes (`df[col] = ...`, `df.loc[...] = ...`).
-/

/-- A cell of a dataframe.  `.missing` is pandas NaN/None; `.logOf q` is the
symbolic real `ln (1 + q)` produced by `np.log1p` for `q > -1`; `.neginf` is
`-∞`, produced by `np.log1p` at exactly `-1`. -/
inductive Value where
  | num (q : ℚ)
  | str (s : String)
  | missing
  | logOf (q : ℚ)
  | neginf
deriving DecidableEq, Repr

/-- A dataframe row: an association list from column name to value. -/
abbrev Row := List (String × Value)

/-- Look a column up in a row; absent keys read as NaN/missing
(pandas row construction fills absent fields with NaN). -/
def Row.get : Row → String → Value
  | [], _ => .missing
  | (k, v) :: r, c => if k = c then v else Row.get r c

/-- Column assignment at row level: replace the value at an existing key,
or append the key at the end (pandas `df[c] = ...` keeps the position of an
existing column and appends a new one). -/
def Row.insert : Row → String → Value → Row
  | [], c, v => [(c, v)]
  | (k, w) :: r, c, v => if k = c then (k, v) :: r else (k, w) :: Row.insert r c v

/-- A dataframe: ordered column names and the list of rows. -/
structure Table where
  cols : List String
  rows : List Row
deriving DecidableEq, Repr

/-- The empty dataframe. -/
def Table.empty : Table := ⟨[], []⟩

/-- `c in df.columns`. -/
def Table.hasCol (t : Table) (c : String) : Bool := t.cols.contains c

/-- `df[c] = <per-row expression>`: set every row's value at `c`, adding the
column name at the end when new. -/
def Table.setCol (t : Table) (c : String) (f : Row → Value) : Table :=
  { cols := if t.cols.contains c then t.cols else t.cols ++ [c]
    rows := t.rows.map fun r => Row.insert r c (f r) }

/-- Boolean-mask row filtering, `df = df[mask]`: keeps columns, drops rows
where the predicate is false. -/
def Table.filterRows (t : Table) (p : Row → Bool) : Table :=
  { cols := t.cols, rows := t.rows.filter p }

/-- The values of one column, in row order (`df[c]` as a series). -/
def Table.colVals (t : Table) (c : String) : List Value :=
  t.rows.map fun r => Row.get r c

/-- Numeric view of a value; strings and NaN have none. -/
def Value.asNum : Value → Option ℚ
  | .num q => some q
  | _ => none

/-- Vectorised numeric binary operation: NaN (or a non-numeric cell)
propagates, as in pandas. -/
def numBinop (f : ℚ → ℚ → ℚ) (v w : Value) : Value :=
  match v.asNum, w.asNum with
  | some a, some b => .num (f a b)
  | _, _ => .missing

/-- Vectorised `+`. -/
def Value.add (v w : Value) : Value := numBinop (· + ·) v w

/-- Vectorised `-`. -/
def Value.sub (v w : Value) : Value := numBinop (· - ·) v w

/-- Vectorised `/`; division by zero (float `inf`/`nan`) is collapsed to
`.missing` — it is unreachable in this pipeline since the divisor used is
`age + 1 ≥ 1`. -/
def Value.div (v w : Value) : Value :=
  match v.asNum, w.asNum with
  | some a, some b => if b = 0 then .missing else .num (a / b)
  | _, _ => .missing

/-- Vectorised `<` against a scalar: NaN comparisons are `False` in pandas. -/
def Value.ltNum (v : Value) (q : ℚ) : Bool :=
  match v.asNum with
  | some a => decide (a < q)
  | none => false

/-- Vectorised `>` against a scalar: NaN comparisons are `False` in pandas. -/
def Value.gtNum (v : Value) (q : ℚ) : Bool :=
  match v.asNum with
  | some a => decide (q < a)
  | none => false

/-- `np.log1p`: `ln (1 + q)` kept symbolic as `.logOf q` for `q > -1`;
`-∞` at `q = -1`; NaN (an invalid-value warning, not a raised error) below
`-1`; NaN propagates. -/
def Value.log1p : Value → Value
  | .num q => if q < -1 then .missing else if q = -1 then .neginf else .logOf q
  | _ => .missing

/-- Python `str()` of a cell, used by `.astype(str)` and by
`get_feature_names_out` when building indicator column names. -/
def Value.toStr : Value → String
  | .num q => toString q
  | .str s => s
  | .missing => "nan"
  | .logOf q => "log1p " ++ toString q
  | .neginf => "-inf"

/-! ## `feature_engineering` (Prepo.py lines 38–63)

Each pipeline statement of the source becomes one named stage; their
composition is `feature_engineering`. -/

/-- `df["age"] = current_year - df["year"]` (line 43). -/
def feAge (current_year : ℤ) (df : Table) : Table :=
  df.setCol "age" fun r => Value.sub (.num (current_year : ℚ)) (r.get "year")

/-- `df.loc[df["age"] < 0, "age"] = 0` (line 44): clamp negative ages. -/
def feClampAge (df : Table) : Table :=
  df.setCol "age" fun r => if (r.get "age").ltNum 0 then .num 0 else r.get "age"

/-- `df["km_per_year"] = df["odometer_km"] / (df["age"] + 1)` (line 47). -/
def feKmPerYear (df : Table) : Table :=
  df.setCol "km_per_year" fun r =>
    (r.get "odometer_km").div ((r.get "age").add (.num 1))

/-- `df["price_log"] = np.log1p(df["price"])` (line 50). -/
def fePriceLog (df : Table) : Table :=
  df.setCol "price_log" fun r => (r.get "price").log1p

/-- The fixed categorical column list of line 53. -/
def catColsFE : List String := ["fuel", "transmission", "brand", "model", "city"]

/-- `fillna("Unknown").astype(str)` at cell level: missing becomes the
string `"Unknown"`, everything else is coerced to a string. -/
def fillVal (v : Value) : Value :=
  match v with
  | .missing => .str "Unknown"
  | v => .str v.toStr

/-- One iteration of the loop of lines 53–57: create the column filled with
`"Unknown"` when absent, otherwise `fillna("Unknown").astype(str)`. -/
def feFillCat1 (df : Table) (c : String) : Table :=
  if df.hasCol c then df.setCol c (fun r => fillVal (r.get c))
  else df.setCol c fun _ => .str "Unknown"

/-- The whole categorical-fill loop (lines 53–57). -/
def feFillCats (df : Table) : Table := catColsFE.foldl feFillCat1 df

/-- `df = df[df["price"] > 0]` (line 60). -/
def fePriceFilter (df : Table) : Table :=
  df.filterRows fun r => (r.get "price").gtNum 0

/-- `df = df[df["odometer_km"] < 1_000_000]` (line 61). -/
def feOdoFilter (df : Table) : Table :=
  df.filterRows fun r => (r.get "odometer_km").ltNum 1000000

/-- `feature_engineering` (lines 38–63), with the wall-clock year
`datetime.now().year` passed explicitly. -/
def feature_engineering (current_year : ℤ) (df : Table) : Table :=
  feOdoFilter (fePriceFilter (feFillCats (fePriceLog (feKmPerYear
    (feClampAge (feAge current_year df))))))

/-! ## `encode_categorical` (Prepo.py lines 68–80)

`OneHotEncoder(handle_unknown="ignore", sparse=False).fit_transform` fits the
vocabulary on the very table being transformed: the categories of a column
are its distinct observed values (`List.dedup`; sklearn additionally sorts
the categories, which only permutes the indicator columns and is irrelevant
to every property below), and each category becomes one indicator column
named `col_value` (`get_feature_names_out`).  `handle_unknown="ignore"`
would map a value outside the fitted vocabulary to all-zero indicators,
which the row-level transform below exhibits directly: an indicator is 1
exactly on equality with its category. -/

/-- The default encoded-column list of line 70. -/
def defaultCatCols : List String := ["fuel", "transmission", "brand"]

/-- The fitted vocabulary: each requested column paired with its distinct
observed values in the input table. -/
def fitCategories (df : Table) (cat_cols : List String) : List (String × List Value) :=
  cat_cols.map fun c => (c, (df.colVals c).dedup)

/-- The indicator cells one source column `c` with fitted categories `vs`
contributes to one row: one cell per category, 1 on equality, else 0. -/
def oneHotBlock (c : String) (vs : List Value) (r : Row) : Row :=
  vs.map fun v => (c ++ "_" ++ v.toStr, if Row.get r c = v then Value.num 1 else Value.num 0)

/-- All indicator cells of one row, across the fitted columns. -/
def oneHotRow (cats : List (String × List Value)) (r : Row) : Row :=
  cats.flatMap fun cv => oneHotBlock cv.1 cv.2 r

/-- `df.drop(columns=cat_cols)` at row level. -/
def dropCats (cat_cols : List String) (r : Row) : Row :=
  r.filter fun kv => !(cat_cols.contains kv.1)

/-- `encode_categorical` (lines 68–80): drop the categorical columns, fit
one-hot indicators on the same table, and concatenate positionally after
resetting both indices (`pd.concat([..., ...], axis=1)` on reset indices is
row-by-row concatenation). -/
def encode_categorical (df : Table) (cat_cols : List String) : Table :=
  let cats := fitCategories df cat_cols
  { cols := df.cols.filter (fun c => !(cat_cols.contains c))
      ++ cats.flatMap fun cv => cv.2.map fun v => cv.1 ++ "_" ++ v.toStr
    rows := df.rows.map fun r => dropCats cat_cols r ++ oneHotRow cats r }

/-! ## `load_data` (lines 12–25), `export_train_data` (lines 85–89) and
`main` (lines 94–102)

I/O is embedded through oracles: `mongoResult` is the outcome of the
MongoDB query (line 17; a `ConnectionError` propagates), `fileExists` is
`os.path.exists`, `readCsv` is `pd.read_csv`.  A raised Python exception is
an `Except.error`. -/

/-- The failure modes of the pipeline's fallible stages: the missing input
file (`FileNotFoundError`, the spec's `DataNotFoundError`), an unreachable
store (`pymongo` `ConnectionError`), or an error propagated from the
external cleaner `run_filters`. -/
inductive PipeError where
  | dataNotFound
  | connectionError
  | cleanerError
deriving DecidableEq, Repr

/-- The fixed input path of line 21. -/
def inputCsvPath : String := "data/extracted_cars.csv"

/-- `load_data` (lines 12–25).  On the file-based path the existence check
of line 21 runs first and raises before `pd.read_csv` is consulted. -/
def load_data (from_mongo : Bool) (mongoResult : Except PipeError Table)
    (fileExists : String → Bool) (readCsv : String → Table) :
    Except PipeError Table :=
  if from_mongo then mongoResult
  else if !(fileExists inputCsvPath) then .error .dataNotFound
  else .ok (readCsv inputCsvPath)

/-- The observable effect of `export_train_data` (lines 85–89): one file
written at the fixed output path with the final table's contents. -/
structure ExportEvent where
  path : String
  table : Table
deriving DecidableEq, Repr

/-- `export_train_data` (lines 85–89). -/
def export_train_data (df : Table) : ExportEvent :=
  { path := "data/train_ready.csv", table := df }

/-- `clean_data` (lines 30–33), with the external collaborator
`run_filters` passed as an oracle; the report is only printed. -/
def clean_data (run_filters : Table → Except PipeError Table) (df : Table) :
    Except PipeError Table :=
  run_filters df

/-- `main` (lines 94–102): the five stages in fixed sequence, no branching,
no retry.  The result is the export event, or the first stage error; an
error short-circuits everything after it, so no file is written. -/
def mainPipeline (loadResult : Except PipeError Table)
    (run_filters : Table → Except PipeError Table) (current_year : ℤ) :
    Except PipeError ExportEvent := do
  let df ← loadResult
  let clean_df ← clean_data run_filters df
  let fe_df := feature_engineering current_year clean_df
  let final_df := encode_categorical fe_df defaultCatCols
  pure (export_train_data final_df)

/-! ## Heap model of frame mutation

`feature_engineering` starts with `df = df.copy()` (line 39) and then
updates that copy in place (`df["age"] = ...`, `df.loc[...] = ...`,
`df[cat_col] = ...`); the two filter lines rebind the local name to freshly
allocated frames.  To check that the caller's table is untouched, frames
live on a heap (a list of tables), an in-place pandas update is `List.set`
at the frame's index, and `copy`/filtering/`drop`/`concat` allocate at the
end.  Each function takes the index of its argument frame and returns the
index of its result frame. -/

/-- A heap of allocated dataframes, addressed by position. -/
abbrev Heap := List Table

/-- Read a frame from the heap. -/
def Heap.read (h : Heap) (i : ℕ) : Table := h.getD i Table.empty

/-- In-place update of the frame at index `i`. -/
def Heap.write (h : Heap) (i : ℕ) (t : Table) : Heap := h.set i t

/-- Allocate a fresh frame at the end of the heap. -/
def Heap.alloc (h : Heap) (t : Table) : Heap × ℕ := (h ++ [t], h.length)

/-- `feature_engineering` as it executes on the heap: copy the argument
frame (line 39), mutate the copy in place through lines 43–57, then rebind
to freshly allocated filtered frames (lines 60–61). -/
def feature_engineering_heap (current_year : ℤ) (h : Heap) (df : ℕ) : Heap × ℕ :=
  let i := h.length
  let h1 := h ++ [h.read df]
  let h2 := h1.write i (feAge current_year (h1.read i))
  let h3 := h2.write i (feClampAge (h2.read i))
  let h4 := h3.write i (feKmPerYear (h3.read i))
  let h5 := h4.write i (fePriceLog (h4.read i))
  let h6 := catColsFE.foldl (fun hh c => hh.write i (feFillCat1 (hh.read i) c)) h5
  let j := h6.length
  let h7 := h6 ++ [fePriceFilter (h6.read i)]
  let k := h7.length
  let h8 := h7 ++ [feOdoFilter (h7.read j)]
  (h8, k)

/-- `encode_categorical` on the heap: `drop`, `fit_transform` and
`pd.concat` only read the argument frame and allocate fresh frames; the
intermediate allocations are coalesced into the result frame. -/
def encode_categorical_heap (h : Heap) (df : ℕ) (cat_cols : List String) : Heap × ℕ :=
  h.alloc (encode_categorical (h.read df) cat_cols)

/-! ## Basic lemmas about rows and tables -/

theorem Row.get_insert_self (r : Row) (c : String) (v : Value) :
    (Row.insert r c v).get c = v := by
  induction r with
  | nil => simp [Row.insert, Row.get]
  | cons kv r ih =>
    obtain ⟨k, w⟩ := kv
    by_cases h : k = c
    · simp [Row.insert, Row.get, h]
    · simp [Row.insert, Row.get, h, ih]

theorem Row.get_insert_ne (r : Row) (c c' : String) (v : Value) (h : c ≠ c') :
    (Row.insert r c v).get c' = r.get c' := by
  induction r with
  | nil => simp [Row.insert, Row.get, h]
  | cons kv r ih =>
    obtain ⟨k, w⟩ := kv
    by_cases hk : k = c
    · subst hk
      simp [Row.insert, Row.get, h, ih]
    · simp [Row.insert, Row.get, hk, ih]

theorem Table.hasCol_iff (t : Table) (c : String) :
    t.hasCol c = true ↔ c ∈ t.cols := by
  simp [Table.hasCol]

theorem Table.mem_setCol_rows {t : Table} {c : String} {f : Row → Value} {r' : Row}
    (h : r' ∈ (t.setCol c f).rows) :
    ∃ r ∈ t.rows, r' = Row.insert r c (f r) := by
  simp only [Table.setCol, List.mem_map] at h
  obtain ⟨r, hr, hr'⟩ := h
  exact ⟨r, hr, hr'.symm⟩

theorem Table.mem_filterRows {t : Table} {p : Row → Bool} {r : Row} :
    r ∈ (t.filterRows p).rows ↔ r ∈ t.rows ∧ p r = true := by
  simp [Table.filterRows, List.mem_filter]

theorem Table.hasCol_setCol (t : Table) (c c' : String) (f : Row → Value) :
    (t.setCol c f).hasCol c' = (t.hasCol c' || decide (c' = c)) := by
  by_cases h : c ∈ t.cols
  · by_cases h' : c' = c
    · subst h'
      simp [Table.setCol, Table.hasCol, h]
    · simp [Table.setCol, Table.hasCol, h, h', List.mem_append]
  · by_cases h' : c' = c
    · subst h'
      simp [Table.setCol, Table.hasCol, h]
    · simp [Table.setCol, Table.hasCol, h, h', List.mem_append]

theorem Table.cols_filterRows (t : Table) (p : Row → Bool) :
    (t.filterRows p).cols = t.cols := rfl

/-! ## The categorical-fill loop -/

theorem feFillCat1_eq (t : Table) (c : String) :
    feFillCat1 t c
      = t.setCol c fun r => if t.hasCol c then fillVal (r.get c) else .str "Unknown" := by
  unfold feFillCat1
  by_cases h : t.hasCol c <;> simp [h]

theorem hasCol_feFillCat1 (t : Table) (c c' : String) :
    (feFillCat1 t c).hasCol c' = (t.hasCol c' || decide (c' = c)) := by
  rw [feFillCat1_eq, Table.hasCol_setCol]

theorem hasCol_fillFold (cs : List String) (t : Table) (k : String) :
    (cs.foldl feFillCat1 t).hasCol k = (t.hasCol k || cs.contains k) := by
  induction cs generalizing t with
  | nil => simp
  | cons c cs ih =>
    simp only [List.foldl_cons, ih, hasCol_feFillCat1, List.contains_cons]
    by_cases h : k = c <;> simp [h, Bool.or_assoc, Bool.or_comm]

theorem fillFold_spec (cs : List String) (hnd : cs.Nodup) (t : Table) (r' : Row)
    (hr : r' ∈ (cs.foldl feFillCat1 t).rows) :
    ∃ r ∈ t.rows,
      (∀ k, k ∉ cs → r'.get k = r.get k) ∧
      (∀ c ∈ cs, r'.get c = if t.hasCol c then fillVal (r.get c) else .str "Unknown") := by
  induction cs generalizing t with
  | nil =>
    exact ⟨r', hr, fun k _ => rfl, fun c hc => absurd hc (List.not_mem_nil c)⟩
  | cons c cs ih =>
    have hcnotin : c ∉ cs := (List.nodup_cons.mp hnd).1
    obtain ⟨r1, hr1, hk, hcs⟩ := ih (List.nodup_cons.mp hnd).2 (feFillCat1 t c) hr
    rw [feFillCat1_eq] at hr1
    obtain ⟨r, hrt, rfl⟩ := Table.mem_setCol_rows hr1
    refine ⟨r, hrt, ?_, ?_⟩
    · intro k hknot
      have hkc : c ≠ k := fun h => hknot (h ▸ List.mem_cons_self c cs)
      have hkcs : k ∉ cs := fun h => hknot (List.mem_cons_of_mem c h)
      rw [hk k hkcs, Row.get_insert_ne _ _ _ _ hkc]
    · intro c' hc'
      rcases List.mem_cons.mp hc' with hcc | hccs
      · subst hcc
        rw [hk c' hcnotin, Row.get_insert_self]
      · have hne : c ≠ c' := by
          intro hcc
          subst hcc
          exact hcnotin hccs
        have hd : decide (c' = c) = false :=
          decide_eq_false fun hcc => hne hcc.symm
        rw [hcs c' hccs, hasCol_feFillCat1, hd, Bool.or_false,
          Row.get_insert_ne _ _ _ _ hne]

/-! ## The numeric stages at row level -/

/-- The clamp of line 44 at cell level. -/
def clampNeg (v : Value) : Value := if v.ltNum 0 then .num 0 else v

/-- The combined effect of lines 43–50 on one row. -/
def feNumRow (current_year : ℤ) (r : Row) : Row :=
  let r1 := Row.insert r "age" (Value.sub (.num (current_year : ℚ)) (r.get "year"))
  let r2 := Row.insert r1 "age" (if (r1.get "age").ltNum 0 then .num 0 else r1.get "age")
  let r3 := Row.insert r2 "km_per_year"
    ((r2.get "odometer_km").div ((r2.get "age").add (.num 1)))
  Row.insert r3 "price_log" ((r3.get "price").log1p)

theorem feNum_rows_eq (current_year : ℤ) (t : Table) :
    (fePriceLog (feKmPerYear (feClampAge (feAge current_year t)))).rows
      = t.rows.map (feNumRow current_year) := by
  simp only [feAge, feClampAge, feKmPerYear, fePriceLog, Table.setCol,
    List.map_map]
  rfl

theorem feNumRow_get_age (current_year : ℤ) (r : Row) :
    (feNumRow current_year r).get "age"
      = clampNeg (Value.sub (.num (current_year : ℚ)) (r.get "year")) := by
  simp only [feNumRow, clampNeg]
  rw [Row.get_insert_ne _ _ _ _ (by decide), Row.get_insert_ne _ _ _ _ (by decide),
    Row.get_insert_self, Row.get_insert_self]

theorem feNumRow_get_km (current_year : ℤ) (r : Row) :
    (feNumRow current_year r).get "km_per_year"
      = (r.get "odometer_km").div
          (((feNumRow current_year r).get "age").add (.num 1)) := by
  rw [feNumRow_get_age]
  simp only [feNumRow, clampNeg]
  rw [Row.get_insert_ne _ _ _ _ (by decide), Row.get_insert_self,
    Row.get_insert_ne _ _ _ _ (by decide), Row.get_insert_ne _ _ _ _ (by decide),
    Row.get_insert_self, Row.get_insert_self]

theorem feNumRow_get_price_log (current_year : ℤ) (r : Row) :
    (feNumRow current_year r).get "price_log" = (r.get "price").log1p := by
  simp only [feNumRow]
  rw [Row.get_insert_self,
    Row.get_insert_ne _ _ _ _ (by decide), Row.get_insert_ne _ _ _ _ (by decide),
    Row.get_insert_ne _ _ _ _ (by decide)]

theorem feNumRow_get_other (current_year : ℤ) (r : Row) (k : String)
    (h1 : k ≠ "age") (h2 : k ≠ "km_per_year") (h3 : k ≠ "price_log") :
    (feNumRow current_year r).get k = r.get k := by
  simp only [feNumRow]
  rw [Row.get_insert_ne _ _ _ _ (Ne.symm h3), Row.get_insert_ne _ _ _ _ (Ne.symm h2),
    Row.get_insert_ne _ _ _ _ (Ne.symm h1), Row.get_insert_ne _ _ _ _ (Ne.symm h1)]

theorem hasCol_feNum (current_year : ℤ) (t : Table) (c : String)
    (h1 : c ≠ "age") (h2 : c ≠ "km_per_year") (h3 : c ≠ "price_log") :
    (fePriceLog (feKmPerYear (feClampAge (feAge current_year t)))).hasCol c
      = t.hasCol c := by
  simp only [feAge, feClampAge, feKmPerYear, fePriceLog, Table.hasCol_setCol,
    decide_eq_false h1, decide_eq_false h2, decide_eq_false h3, Bool.or_false]

/-! ## Master description of the rows surviving `feature_engineering` -/

theorem feature_engineering_row_spec (current_year : ℤ) (t : Table) (r' : Row)
    (h : r' ∈ (feature_engineering current_year t).rows) :
    ∃ r ∈ t.rows,
      (r'.get "price").gtNum 0 = true ∧
      (r'.get "odometer_km").ltNum 1000000 = true ∧
      (∀ k, k ∉ catColsFE → r'.get k = (feNumRow current_year r).get k) ∧
      (∀ c ∈ catColsFE, r'.get c =
        if t.hasCol c then fillVal ((feNumRow current_year r).get c)
        else .str "Unknown") := by
  have h1 := Table.mem_filterRows.mp h
  have h2 := Table.mem_filterRows.mp h1.1
  have h3 : r' ∈ (feFillCats (fePriceLog (feKmPerYear (feClampAge
      (feAge current_year t))))).rows := h2.1
  obtain ⟨r4, hr4, hother, hcat⟩ :=
    fillFold_spec catColsFE (by decide) _ r' h3
  rw [feNum_rows_eq] at hr4
  obtain ⟨r, hrt, rfl⟩ := List.mem_map.mp hr4
  refine ⟨r, hrt, h2.2, h1.2, hother, ?_⟩
  intro c hc
  rw [hcat c hc]
  have hcols : (fePriceLog (feKmPerYear (feClampAge (feAge current_year t)))).hasCol c
      = t.hasCol c := by
    fin_cases hc <;> exact hasCol_feNum _ _ _ (by decide) (by decide) (by decide)
  rw [hcols]

theorem gtNum_true_iff (v : Value) (q : ℚ) :
    v.gtNum q = true ↔ ∃ a, v = .num a ∧ q < a := by
  cases v <;> simp [Value.gtNum, Value.asNum]

theorem ltNum_true_iff (v : Value) (q : ℚ) :
    v.ltNum q = true ↔ ∃ a, v = .num a ∧ a < q := by
  cases v <;> simp [Value.ltNum, Value.asNum]

theorem clampNeg_num (v : Value) (a : ℚ) (h : clampNeg v = .num a) : 0 ≤ a := by
  cases v <;> simp [clampNeg, Value.ltNum, Value.asNum] at h
  case num q =>
    by_cases hq : q < 0
    · simp [hq] at h
      linarith
    · simp [hq] at h
      rw [← h]
      exact le_of_not_lt hq

/-- The "age" cell of a surviving row is the clamped difference
`current_year - year` of the originating row, which keeps its "year" cell. -/
theorem age_eq_of_mem (current_year : ℤ) (t : Table) (r : Row)
    (h : r ∈ (feature_engineering current_year t).rows) :
    r.get "age" = clampNeg (Value.sub (.num (current_year : ℚ)) (r.get "year")) := by
  obtain ⟨r0, hr0, hp, ho, hother, hcat⟩ :=
    feature_engineering_row_spec current_year t r h
  rw [hother "age" (by decide), feNumRow_get_age,
    hother "year" (by decide), feNumRow_get_other _ _ _ (by decide) (by decide) (by decide)]

/-- **C1.** Every row of the table returned by `feature_engineering` has a
numeric price with `price > 0` strictly and a numeric odometer reading with
`odometer_km < 1_000_000` strictly; hence a row with `price == 0` or
`odometer_km == 1_000_000` (or any row violating either bound, or with a
NaN in either column) does not survive the two filters of lines 60–61. -/
theorem c1_price_odometer_bounds (current_year : ℤ) (t : Table) (r : Row)
    (h : r ∈ (feature_engineering current_year t).rows) :
    (∃ p : ℚ, r.get "price" = .num p ∧ 0 < p) ∧
    (∃ o : ℚ, r.get "odometer_km" = .num o ∧ o < 1000000) := by
  obtain ⟨r0, hr0, hp, ho, hother, hcat⟩ :=
    feature_engineering_row_spec current_year t r h
  exact ⟨(gtNum_true_iff _ _).mp hp, (ltNum_true_iff _ _).mp ho⟩

/-- **C2.** In every row returned by `feature_engineering`, `km_per_year`
is exactly `odometer_km / (age + 1)` computed from that row's (clamped)
`age` and its `odometer_km`; an age-0 row gets `km_per_year = odometer_km`;
and the divisor `age + 1` is never zero (a numeric age is `≥ 0`, so
`age + 1 ≥ 1`). -/
theorem c2_km_per_year (current_year : ℤ) (t : Table) (r : Row)
    (h : r ∈ (feature_engineering current_year t).rows) :
    r.get "km_per_year" = (r.get "odometer_km").div ((r.get "age").add (.num 1)) ∧
    (r.get "age" = .num 0 → r.get "km_per_year" = r.get "odometer_km") ∧
    (∀ a : ℚ, r.get "age" = .num a → a + 1 ≠ 0) := by
  obtain ⟨r0, hr0, hp, ho, hother, hcat⟩ :=
    feature_engineering_row_spec current_year t r h
  have hage : r.get "age" = (feNumRow current_year r0).get "age" :=
    hother "age" (by decide)
  have hodo : r.get "odometer_km" = r0.get "odometer_km" := by
    rw [hother "odometer_km" (by decide),
      feNumRow_get_other _ _ _ (by decide) (by decide) (by decide)]
  have hkm : r.get "km_per_year" = (r.get "odometer_km").div ((r.get "age").add (.num 1)) := by
    rw [hother "km_per_year" (by decide), feNumRow_get_km, ← hage, ← hodo]
  refine ⟨hkm, ?_, ?_⟩
  · intro h0
    obtain ⟨o, hov, _⟩ := (ltNum_true_iff _ _).mp ho
    rw [hkm, h0, hov]
    simp [Value.add, Value.div, numBinop, Value.asNum]
  · intro a ha
    have h0 : 0 ≤ a := by
      apply clampNeg_num (Value.sub (.num (current_year : ℚ)) (r.get "year"))
      rw [← age_eq_of_mem current_year t r h]
      exact ha
    intro hcontra
    have : a = -1 := by linarith
    rw [this] at h0
    norm_num at h0

/-- **C3.** `feature_engineering` computes `age = current_year - year`
(with `current_year` the wall-clock year passed in) and clamps negative
results to 0: a surviving row with numeric `year` has
`age = max (current_year - year) 0`, and every numeric `age` in the output
is `≥ 0` — also when `year` lies in the future. -/
theorem c3_age_nonneg (current_year : ℤ) (t : Table) (r : Row)
    (h : r ∈ (feature_engineering current_year t).rows) :
    (∀ yr : ℚ, r.get "year" = .num yr →
      r.get "age" = .num (max ((current_year : ℚ) - yr) 0)) ∧
    (∀ a : ℚ, r.get "age" = .num a → 0 ≤ a) := by
  have hage := age_eq_of_mem current_year t r h
  constructor
  · intro yr hyr
    rw [hage, hyr]
    by_cases hneg : (current_year : ℚ) - yr < 0
    · rw [max_eq_right (le_of_lt hneg)]
      simp [Value.sub, numBinop, Value.asNum, clampNeg, Value.ltNum, hneg]
    · rw [max_eq_left (le_of_not_lt hneg)]
      simp [Value.sub, numBinop, Value.asNum, clampNeg, Value.ltNum, hneg]
  · intro a ha
    apply clampNeg_num (Value.sub (.num (current_year : ℚ)) (r.get "year"))
    rw [← hage]
    exact ha

theorem Table.hasCol_filterRows (t : Table) (p : Row → Bool) (c : String) :
    (t.filterRows p).hasCol c = t.hasCol c := rfl

/-- **C4 (amended).** For every surviving row, `price_log` is exactly
`ln (1 + price)` (symbolically, `Value.logOf price`), and the log step of
line 50 runs before the `price > 0` filter of line 60: in the intermediate
table right after the log step, a row whose price is `≤ -1` carries an
invalid `price_log` — NaN (`.missing`) for price `< -1`, `-∞` (`.neginf`)
at price `= -1` exactly — produced by `np.log1p` with a warning and
without raising; the row is subsequently removed by the filter, not
aborted on. -/
theorem c4_price_log_before_filter (current_year : ℤ) (t : Table) :
    feature_engineering current_year t
      = feOdoFilter (fePriceFilter (feFillCats (fePriceLog (feKmPerYear
          (feClampAge (feAge current_year t)))))) ∧
    (∀ r ∈ (feature_engineering current_year t).rows,
      ∃ p : ℚ, r.get "price" = .num p ∧ 0 < p ∧ r.get "price_log" = .logOf p) ∧
    (∀ r ∈ (fePriceLog (feKmPerYear (feClampAge (feAge current_year t)))).rows,
      ∀ p : ℚ, r.get "price" = .num p →
        (p < -1 → r.get "price_log" = .missing) ∧
        (p = -1 → r.get "price_log" = .neginf)) := by
  refine ⟨rfl, ?_, ?_⟩
  · intro r hr
    obtain ⟨r0, hr0, hp, ho, hother, hcat⟩ :=
      feature_engineering_row_spec current_year t r hr
    obtain ⟨p, hpv, hppos⟩ := (gtNum_true_iff _ _).mp hp
    have hprice0 : r0.get "price" = .num p := by
      rw [← hpv, hother "price" (by decide),
        feNumRow_get_other _ _ _ (by decide) (by decide) (by decide)]
    refine ⟨p, hpv, hppos, ?_⟩
    rw [hother "price_log" (by decide), feNumRow_get_price_log, hprice0]
    have h1 : ¬ p < -1 := by linarith
    have h2 : ¬ p = -1 := by intro hc; rw [hc] at hppos; norm_num at hppos
    simp [Value.log1p, h1, h2]
  · intro r hr p hpv
    rw [feNum_rows_eq] at hr
    obtain ⟨r0, hr0, rfl⟩ := List.mem_map.mp hr
    rw [feNumRow_get_other _ _ _ (by decide) (by decide) (by decide)] at hpv
    constructor
    · intro hplt
      rw [feNumRow_get_price_log, hpv]
      simp [Value.log1p, hplt]
    · intro hpeq
      rw [feNumRow_get_price_log, hpv, hpeq]
      have h1 : ¬((-1 : ℚ) < -1) := lt_irrefl _
      simp [Value.log1p, h1]

/-- A row whose price is `-5 < -1`. -/
def negPriceRow : Row :=
  [("price", .num (-5)), ("year", .num 2020), ("odometer_km", .num 1000)]

/-- A row whose price is exactly `-1`, the boundary of `log1p`'s domain. -/
def negOneRow : Row :=
  [("price", .num (-1)), ("year", .num 2020), ("odometer_km", .num 1000)]

/-- The table holding `negPriceRow` and `negOneRow`. -/
def negPriceTable : Table :=
  { cols := ["price", "year", "odometer_km"], rows := [negPriceRow, negOneRow] }

/-- **C4 counterexample.** Rows with `price ≤ -1` do *not* make the log
step fail: in the intermediate table after line 50, `np.log1p` merely
produces NaN (`.missing`) for the `price = -5` row and `-∞` (`.neginf`)
for the `price = -1` row, and `feature_engineering` then returns normally
with both rows removed by the `price > 0` filter — they are filtered, not
aborted on with a domain error. -/
theorem c4_no_domain_error :
    ((fePriceLog (feKmPerYear (feClampAge (feAge 2024 negPriceTable)))).rows.map
        fun r => r.get "price_log") = [Value.missing, Value.neginf] ∧
    (feature_engineering 2024 negPriceTable).rows = [] := by
  have hget : negPriceRow.get "price" = .num (-5) := by
    simp [negPriceRow, Row.get]
  have hget1 : negOneRow.get "price" = .num (-1) := by
    simp [negOneRow, Row.get]
  have hlog : Value.log1p (.num (-5)) = .missing := by
    have h5 : ((-5 : ℚ) < -1) := by norm_num
    simp [Value.log1p, h5]
  have hlog1 : Value.log1p (.num (-1)) = .neginf := by
    have hn : ¬((-1 : ℚ) < -1) := lt_irrefl _
    simp [Value.log1p, hn]
  constructor
  · rw [feNum_rows_eq]
    simp only [negPriceTable, List.map_map, List.map_cons, List.map_nil,
      Function.comp]
    rw [feNumRow_get_price_log, feNumRow_get_price_log, hget, hget1, hlog, hlog1]
  · rw [List.eq_nil_iff_forall_not_mem]
    intro r hr
    obtain ⟨r0, hr0, hp, ho, hother, hcat⟩ :=
      feature_engineering_row_spec 2024 negPriceTable r hr
    obtain ⟨p, hpv, hppos⟩ := (gtNum_true_iff _ _).mp hp
    have hpr : r.get "price" = r0.get "price" := by
      rw [hother "price" (by decide),
        feNumRow_get_other _ _ _ (by decide) (by decide) (by decide)]
    have hr0' : r0 = negPriceRow ∨ r0 = negOneRow := by
      simpa [negPriceTable] using hr0
    rcases hr0' with h0 | h0
    · rw [hpr, h0, hget] at hpv
      injection hpv with hp5
      rw [← hp5] at hppos
      norm_num at hppos
    · rw [hpr, h0, hget1] at hpv
      injection hpv with hp1
      rw [← hp1] at hppos
      norm_num at hppos

/-- **C5.** After `feature_engineering`, each of the five categorical
columns `fuel`, `transmission`, `brand`, `model`, `city` is present; in
every surviving row its value is a string and never missing; a column
absent from the input is `"Unknown"` in every row; a column present in the
input holds `fillna("Unknown").astype(str)` of the originating row's
value. -/
theorem c5_categorical_defaults (current_year : ℤ) (t : Table) :
    (∀ c ∈ catColsFE, (feature_engineering current_year t).hasCol c = true) ∧
    (∀ r ∈ (feature_engineering current_year t).rows, ∃ r0 ∈ t.rows,
      ∀ c ∈ catColsFE,
        (∃ s : String, r.get c = .str s) ∧
        r.get c ≠ .missing ∧
        (t.hasCol c = false → r.get c = .str "Unknown") ∧
        (t.hasCol c = true → r.get c = fillVal (r0.get c))) := by
  constructor
  · intro c hc
    show (feOdoFilter (fePriceFilter (feFillCats _))).hasCol c = true
    rw [feOdoFilter, Table.hasCol_filterRows, fePriceFilter, Table.hasCol_filterRows,
      feFillCats, hasCol_fillFold]
    have hcc : catColsFE.contains c = true := by simpa using hc
    rw [hcc, Bool.or_true]
  · intro r hr
    obtain ⟨r0, hr0, hp, ho, hother, hcat⟩ :=
      feature_engineering_row_spec current_year t r hr
    refine ⟨r0, hr0, ?_⟩
    intro c hc
    have hnum : (feNumRow current_year r0).get c = r0.get c := by
      fin_cases hc <;>
        exact feNumRow_get_other _ _ _ (by decide) (by decide) (by decide)
    have hval := hcat c hc
    rw [hnum] at hval
    by_cases hpres : t.hasCol c
    · rw [hval, if_pos hpres]
      refine ⟨?_, ?_, ?_, ?_⟩
      · cases r0.get c <;> simp [fillVal]
      · cases r0.get c <;> simp [fillVal]
      · intro hcontra
        rw [hpres] at hcontra
        cases hcontra
      · intro _
        rfl
    · rw [hval, if_neg hpres]
      refine ⟨⟨"Unknown", rfl⟩, by simp, fun _ => rfl, ?_⟩
      intro hcontra
      exact absurd hcontra hpres

/-! ## Column counting for the encoder -/

/-- The number of distinct observed values of one column. -/
def distinctCount (t : Table) (c : String) : ℕ := ((t.colVals c).dedup).length

/-- Distinct observed values, counted per requested column and summed. -/
def totalCategories (t : Table) (cs : List String) : ℕ :=
  (cs.map fun c => distinctCount t c).sum

theorem length_filter_not_contains (l cats : List String)
    (hnd : l.Nodup) (hcats : cats.Nodup) (hsub : ∀ c ∈ cats, c ∈ l) :
    (l.filter fun c => !(cats.contains c)).length = l.length - cats.length := by
  have h1 : (l.filter fun c => cats.contains c).length = cats.length := by
    have hnd1 : (l.filter fun c => cats.contains c).Nodup := hnd.filter _
    have hperm : (l.filter fun c => cats.contains c).Perm cats := by
      rw [List.perm_ext_iff_of_nodup hnd1 hcats]
      intro a
      simp only [List.mem_filter]
      constructor
      · rintro ⟨-, ha⟩
        simpa using ha
      · intro ha
        exact ⟨hsub a ha, by simpa using ha⟩
    exact hperm.length_eq
  have h2 := List.length_eq_countP_add_countP (fun c => cats.contains c) l
  rw [List.countP_eq_length_filter, List.countP_eq_length_filter] at h2
  have h3 : (l.filter fun a => decide ¬(cats.contains a) = true).length
      = (l.filter fun c => !(cats.contains c)).length := by
    congr 1
    apply List.filter_congr
    intro a _
    cases hca : cats.contains a <;> simp [hca]
  rw [h3, h1] at h2
  omega

/-- **C6.** With the default column list `fuel`, `transmission`, `brand`
(all present in the input, whose column names are not duplicated),
`encode_categorical` returns a table with
`(input column count - 3) + (distinct observed values, summed per encoded
column)` columns: the three categorical columns are removed and replaced by
one indicator column per observed value per column. -/
theorem c6_encoded_column_count (t : Table)
    (hnd : t.cols.Nodup)
    (hf : "fuel" ∈ t.cols) (ht : "transmission" ∈ t.cols) (hb : "brand" ∈ t.cols) :
    (encode_categorical t defaultCatCols).cols.length
      = t.cols.length - 3 + totalCategories t defaultCatCols := by
  have hA : (t.cols.filter fun c => !(defaultCatCols.contains c)).length
      = t.cols.length - 3 := by
    have hsub : ∀ c ∈ defaultCatCols, c ∈ t.cols := by
      intro c hc
      fin_cases hc
      · exact hf
      · exact ht
      · exact hb
    exact length_filter_not_contains t.cols defaultCatCols hnd (by decide) hsub
  have hB : ((fitCategories t defaultCatCols).flatMap fun cv =>
      cv.2.map fun v => cv.1 ++ "_" ++ v.toStr).length
      = totalCategories t defaultCatCols := by
    rw [List.length_flatMap]
    simp [fitCategories, List.map_map, Function.comp_def, totalCategories,
      distinctCount]
  show ((t.cols.filter fun c => !(defaultCatCols.contains c))
      ++ (fitCategories t defaultCatCols).flatMap fun cv =>
        cv.2.map fun v => cv.1 ++ "_" ++ v.toStr).length
    = t.cols.length - 3 + totalCategories t defaultCatCols
  rw [List.length_append, hA, hB]

/-- **C7.** With the file-based source selected and a file system on which
the fixed input path does not exist, `load_data` returns the
data-not-found error (`FileNotFoundError`, raised by the existence check of
line 21) for *every* possible `read_csv` oracle — the error precedes any
attempt to read — and the whole pipeline run reports that same error for
every cleaner, so no transformation stage runs and nothing is exported. -/
theorem c7_missing_file_aborts (mongoResult : Except PipeError Table)
    (fileExists : String → Bool) (readCsv : String → Table)
    (run_filters : Table → Except PipeError Table) (current_year : ℤ)
    (h : fileExists inputCsvPath = false) :
    load_data false mongoResult fileExists readCsv = .error .dataNotFound ∧
    mainPipeline (load_data false mongoResult fileExists readCsv)
        run_filters current_year = .error .dataNotFound := by
  have hload : load_data false mongoResult fileExists readCsv
      = .error .dataNotFound := by
    simp [load_data, h]
  refine ⟨hload, ?_⟩
  rw [mainPipeline, hload]
  rfl

/-- **C8.** The orchestrator `main` runs Load, Clean, Feature-Engineer,
Encode, Export in that fixed order with no branching or retry: an error in
the load stage, or one raised by the cleaner, short-circuits the run with
that error and no export event is produced; the export event is produced
exactly when both fallible stages succeed, and then it carries the final
table obtained by encoding the feature-engineered cleaned table. -/
theorem c8_fixed_order_no_partial_export (loadResult : Except PipeError Table)
    (run_filters : Table → Except PipeError Table) (current_year : ℤ) :
    (∀ e, loadResult = .error e →
      mainPipeline loadResult run_filters current_year = .error e) ∧
    (∀ df e, loadResult = .ok df → run_filters df = .error e →
      mainPipeline loadResult run_filters current_year = .error e) ∧
    (∀ df clean_df, loadResult = .ok df → run_filters df = .ok clean_df →
      mainPipeline loadResult run_filters current_year
        = .ok (export_train_data (encode_categorical
            (feature_engineering current_year clean_df) defaultCatCols))) := by
  refine ⟨?_, ?_, ?_⟩
  · intro e he
    rw [mainPipeline, he]
    rfl
  · intro df e hdf hclean
    rw [mainPipeline, hdf]
    show Except.bind (clean_data run_filters df) _ = _
    rw [clean_data, hclean]
    rfl
  · intro df clean_df hdf hclean
    rw [mainPipeline, hdf]
    show Except.bind (clean_data run_filters df) _ = _
    rw [clean_data, hclean]
    rfl

/-- **C10.** `encode_categorical` fits its vocabulary on the very table it
transforms, so (given no missing values in the encoded columns) every value
reaching the transform is in the fitted vocabulary: the output has exactly
one row per input row — each the non-categorical cells followed by the
indicator blocks — and in each row's indicator block for each encoded
column exactly one indicator is 1 and every other indicator is 0; the
all-zero unknown-category encoding never occurs within a single run. -/
theorem c10_one_hot_within_run (t : Table) (cat_cols : List String)
    (hmiss : ∀ c ∈ cat_cols, ∀ r ∈ t.rows, r.get c ≠ .missing) :
    (encode_categorical t cat_cols).rows.length = t.rows.length ∧
    (encode_categorical t cat_cols).rows
      = t.rows.map (fun r => dropCats cat_cols r ++ oneHotRow (fitCategories t cat_cols) r) ∧
    (∀ r ∈ t.rows, ∀ c ∈ cat_cols,
      (oneHotBlock c ((t.colVals c).dedup) r).countP
          (fun kv => kv.2 == Value.num 1) = 1 ∧
      ∀ kv ∈ oneHotBlock c ((t.colVals c).dedup) r,
        kv.2 = Value.num 1 ∨ kv.2 = Value.num 0) := by
  refine ⟨by simp [encode_categorical], rfl, ?_⟩
  intro r hr c hc
  constructor
  · unfold oneHotBlock
    rw [List.countP_map]
    have hmem : r.get c ∈ (t.colVals c).dedup := by
      rw [List.mem_dedup, Table.colVals]
      exact List.mem_map.mpr ⟨r, hr, rfl⟩
    have hnd := List.nodup_dedup (t.colVals c)
    have hcongr : ∀ v ∈ (t.colVals c).dedup,
        (((fun kv : String × Value => kv.2 == Value.num 1) ∘ fun v =>
          (c ++ "_" ++ v.toStr, if r.get c = v then Value.num 1 else Value.num 0)) v = true
        ↔ (v == r.get c) = true) := by
      intro v _
      by_cases hv : r.get c = v
      · simp [Function.comp, hv]
      · have hv' : ¬ v = r.get c := fun hh => hv hh.symm
        simp [Function.comp, hv, hv']
    rw [List.countP_congr hcongr]
    exact List.count_eq_one_of_mem hnd hmem
  · intro kv hkv
    unfold oneHotBlock at hkv
    obtain ⟨v, hv, rfl⟩ := List.mem_map.mp hkv
    by_cases hveq : r.get c = v
    · left
      simp [hveq]
    · right
      simp [hveq]

/-! ## Heap lemmas -/

theorem Heap.length_write (h : Heap) (i : ℕ) (t : Table) :
    (h.write i t).length = h.length := List.length_set h i t

theorem Heap.read_write_self (h : Heap) (i : ℕ) (t : Table) (hi : i < h.length) :
    (h.write i t).read i = t := by
  simp [Heap.write, Heap.read, List.getD_eq_getElem?_getD, List.getElem?_set_self hi]

theorem Heap.read_write_ne (h : Heap) (i j : ℕ) (t : Table) (hne : j ≠ i) :
    (h.write i t).read j = h.read j := by
  simp [Heap.write, Heap.read, List.getD_eq_getElem?_getD,
    List.getElem?_set_ne (fun hh => hne hh.symm)]

theorem Heap.read_append_old (h : Heap) (t : Table) (i : ℕ) (hi : i < h.length) :
    (h ++ [t]).read i = h.read i := by
  simp [Heap.read, List.getD_eq_getElem?_getD, List.getElem?_append_left hi]

theorem Heap.read_append_new (h : Heap) (t : Table) :
    (h ++ [t]).read h.length = t := by
  simp [Heap.read, List.getD_eq_getElem?_getD, List.getElem?_concat_length]

theorem foldl_write_length (cs : List String) (g : Table → String → Table)
    (h : Heap) (i : ℕ) :
    (cs.foldl (fun hh c => hh.write i (g (hh.read i) c)) h).length = h.length := by
  induction cs generalizing h with
  | nil => rfl
  | cons c cs ih => rw [List.foldl_cons, ih, Heap.length_write]

theorem foldl_write_read_ne (cs : List String) (g : Table → String → Table)
    (h : Heap) (i j : ℕ) (hne : j ≠ i) :
    (cs.foldl (fun hh c => hh.write i (g (hh.read i) c)) h).read j = h.read j := by
  induction cs generalizing h with
  | nil => rfl
  | cons c cs ih => rw [List.foldl_cons, ih, Heap.read_write_ne _ _ _ _ hne]

theorem foldl_write_read_self (cs : List String) (g : Table → String → Table)
    (h : Heap) (i : ℕ) (hi : i < h.length) :
    (cs.foldl (fun hh c => hh.write i (g (hh.read i) c)) h).read i
      = cs.foldl g (h.read i) := by
  induction cs generalizing h with
  | nil => rfl
  | cons c cs ih =>
    rw [List.foldl_cons, List.foldl_cons,
      ih _ (by rw [Heap.length_write]; exact hi),
      Heap.read_write_self _ _ _ hi]

/-- **C9.** Neither `feature_engineering` nor `encode_categorical` mutates
the frame passed in: on the heap of dataframes, `feature_engineering`
copies its argument first (line 39) and performs all its in-place updates
on the copy, rebinding to freshly allocated frames for the two filters, and
`encode_categorical` only reads its argument and allocates its result — so
after either stage the caller's frame still holds exactly the columns,
rows and values it held before, and the returned frame holds the stage's
functional result. -/
theorem c9_stages_leave_input_unchanged (current_year : ℤ) (h : Heap) (df : ℕ)
    (cat_cols : List String) (hdf : df < h.length) :
    (feature_engineering_heap current_year h df).1.read df = h.read df ∧
    (feature_engineering_heap current_year h df).1.read
        (feature_engineering_heap current_year h df).2
      = feature_engineering current_year (h.read df) ∧
    (encode_categorical_heap h df cat_cols).1.read df = h.read df ∧
    (encode_categorical_heap h df cat_cols).1.read
        (encode_categorical_heap h df cat_cols).2
      = encode_categorical (h.read df) cat_cols := by
  set i := h.length with hi
  set h1 : Heap := h ++ [h.read df] with hh1
  set h2 := h1.write i (feAge current_year (h1.read i)) with hh2
  set h3 := h2.write i (feClampAge (h2.read i)) with hh3
  set h4 := h3.write i (feKmPerYear (h3.read i)) with hh4
  set h5 := h4.write i (fePriceLog (h4.read i)) with hh5
  set h6 := catColsFE.foldl (fun hh c => hh.write i (feFillCat1 (hh.read i) c)) h5
    with hh6
  set h7 := h6 ++ [fePriceFilter (h6.read i)] with hh7
  set h8 := h7 ++ [feOdoFilter (h7.read h6.length)] with hh8
  have hfe : feature_engineering_heap current_year h df = (h8, h7.length) := rfl
  have l1 : h1.length = h.length + 1 := by
    simp [hh1]
  have l2 : h2.length = h1.length := Heap.length_write _ _ _
  have l3 : h3.length = h1.length := by rw [hh3, Heap.length_write, l2]
  have l4 : h4.length = h1.length := by rw [hh4, Heap.length_write, l3]
  have l5 : h5.length = h1.length := by rw [hh5, Heap.length_write, l4]
  have l6 : h6.length = h1.length := by rw [hh6, foldl_write_length, l5]
  have l7 : h7.length = h1.length + 1 := by
    rw [hh7]
    simp [l6]
  have hdfne : df ≠ i := by omega
  have hil1 : i < h1.length := by omega
  have hrdf : h8.read df = h.read df := by
    rw [hh8, Heap.read_append_old _ _ _ (by omega),
      hh7, Heap.read_append_old _ _ _ (by omega),
      hh6, foldl_write_read_ne _ _ _ _ _ hdfne,
      hh5, Heap.read_write_ne _ _ _ _ hdfne,
      hh4, Heap.read_write_ne _ _ _ _ hdfne,
      hh3, Heap.read_write_ne _ _ _ _ hdfne,
      hh2, Heap.read_write_ne _ _ _ _ hdfne,
      hh1, Heap.read_append_old _ _ _ hdf]
  have hr1 : h1.read i = h.read df := by
    rw [hh1, hi, Heap.read_append_new]
  have hr2 : h2.read i = feAge current_year (h.read df) := by
    rw [hh2, Heap.read_write_self _ _ _ hil1, hr1]
  have hr3 : h3.read i = feClampAge (feAge current_year (h.read df)) := by
    rw [hh3, Heap.read_write_self _ _ _ (by omega), hr2]
  have hr4 : h4.read i = feKmPerYear (feClampAge (feAge current_year (h.read df))) := by
    rw [hh4, Heap.read_write_self _ _ _ (by omega), hr3]
  have hr5 : h5.read i
      = fePriceLog (feKmPerYear (feClampAge (feAge current_year (h.read df)))) := by
    rw [hh5, Heap.read_write_self _ _ _ (by omega), hr4]
  have hr6 : h6.read i
      = feFillCats (fePriceLog (feKmPerYear (feClampAge
          (feAge current_year (h.read df))))) := by
    rw [hh6, foldl_write_read_self _ _ _ _ (by omega), hr5]
    rfl
  have hres : h8.read h7.length = feature_engineering current_year (h.read df) := by
    rw [hh8, Heap.read_append_new, hh7, Heap.read_append_new, hr6]
    rfl
  have henc : encode_categorical_heap h df cat_cols
      = (h ++ [encode_categorical (h.read df) cat_cols], h.length) := rfl
  refine ⟨?_, ?_, ?_, ?_⟩
  · rw [hfe]
    exact hrdf
  · rw [hfe]
    exact hres
  · rw [henc]
    exact Heap.read_append_old _ _ _ hdf
  · rw [henc]
    exact Heap.read_append_new _ _

/-! ## Concrete sample data and witnesses -/

/-- The sample listing of the spec's end-to-end scenario: price 10000,
year 2020, odometer 50000, fuel "petrol". -/
def sampleRow : Row :=
  [("price", .num 10000), ("year", .num 2020), ("odometer_km", .num 50000),
   ("fuel", .str "petrol")]

/-- A one-row input table around `sampleRow`. -/
def sampleTable : Table :=
  { cols := ["price", "year", "odometer_km", "fuel"], rows := [sampleRow] }

/-- What `feature_engineering` at wall-clock year 2024 makes of
`sampleRow`: age 4, km_per_year 10000, price_log = ln(1+10000), `fuel`
kept, the four other categorical columns defaulted to "Unknown". -/
def sampleOutRow : Row :=
  [("price", .num 10000), ("year", .num 2020), ("odometer_km", .num 50000),
   ("fuel", .str "petrol"), ("age", .num 4), ("km_per_year", .num 10000),
   ("price_log", .logOf 10000), ("transmission", .str "Unknown"),
   ("brand", .str "Unknown"), ("model", .str "Unknown"), ("city", .str "Unknown")]

set_option maxHeartbeats 1000000 in
theorem sample_fe_eval :
    (feature_engineering 2024 sampleTable).rows = [sampleOutRow] := by
  have hsub : (2024 : ℚ) - 2020 = 4 := by norm_num
  have hclamp : ¬((4 : ℚ) < 0) := by norm_num
  have h45 : (4 : ℚ) + 1 = 5 := by norm_num
  have h50 : ¬((5 : ℚ) = 0) := by norm_num
  have hdiv : (50000 : ℚ) / 5 = 10000 := by norm_num
  have hl1 : ¬((10000 : ℚ) < -1) := by norm_num
  have hl2 : ¬((10000 : ℚ) = -1) := by norm_num
  have hgt : (0 : ℚ) < 10000 := by norm_num
  have hodo : (50000 : ℚ) < 1000000 := by norm_num
  simp [feature_engineering, feAge, feClampAge, feKmPerYear, fePriceLog,
    feFillCats, feFillCat1, fePriceFilter, feOdoFilter, catColsFE,
    Table.setCol, Table.filterRows, Table.hasCol, fillVal, Value.toStr,
    Row.insert, Row.get, Value.sub, Value.add, Value.div, numBinop,
    Value.asNum, Value.ltNum, Value.gtNum, Value.log1p,
    sampleTable, sampleRow, sampleOutRow,
    hsub, hclamp, h45, h50, hdiv, hl1, hl2, hgt, hodo]

theorem sampleOutRow_mem :
    sampleOutRow ∈ (feature_engineering 2024 sampleTable).rows := by
  rw [sample_fe_eval]
  exact List.mem_singleton.mpr rfl

theorem c1_witness :
    sampleOutRow ∈ (feature_engineering 2024 sampleTable).rows ∧
    ((∃ p : ℚ, sampleOutRow.get "price" = .num p ∧ 0 < p) ∧
     (∃ o : ℚ, sampleOutRow.get "odometer_km" = .num o ∧ o < 1000000)) :=
  ⟨sampleOutRow_mem,
    c1_price_odometer_bounds 2024 sampleTable sampleOutRow sampleOutRow_mem⟩

theorem c2_witness :
    sampleOutRow ∈ (feature_engineering 2024 sampleTable).rows ∧
    (sampleOutRow.get "km_per_year"
        = (sampleOutRow.get "odometer_km").div
            ((sampleOutRow.get "age").add (.num 1)) ∧
      (sampleOutRow.get "age" = .num 0 →
        sampleOutRow.get "km_per_year" = sampleOutRow.get "odometer_km") ∧
      (∀ a : ℚ, sampleOutRow.get "age" = .num a → a + 1 ≠ 0)) :=
  ⟨sampleOutRow_mem, c2_km_per_year 2024 sampleTable sampleOutRow sampleOutRow_mem⟩

theorem c3_witness :
    sampleOutRow ∈ (feature_engineering 2024 sampleTable).rows ∧
    ((∀ yr : ℚ, sampleOutRow.get "year" = .num yr →
        sampleOutRow.get "age" = .num (max ((2024 : ℚ) - yr) 0)) ∧
      (∀ a : ℚ, sampleOutRow.get "age" = .num a → 0 ≤ a)) :=
  ⟨sampleOutRow_mem, c3_age_nonneg 2024 sampleTable sampleOutRow sampleOutRow_mem⟩

theorem c4_witness :
    sampleOutRow ∈ (feature_engineering 2024 sampleTable).rows ∧
    (∃ p : ℚ, sampleOutRow.get "price" = .num p ∧ 0 < p ∧
      sampleOutRow.get "price_log" = .logOf p) :=
  ⟨sampleOutRow_mem,
    (c4_price_log_before_filter 2024 sampleTable).2.1 sampleOutRow sampleOutRow_mem⟩

theorem c5_witness :
    ("transmission" ∈ catColsFE) ∧
    (feature_engineering 2024 sampleTable).hasCol "transmission" = true ∧
    sampleOutRow ∈ (feature_engineering 2024 sampleTable).rows ∧
    (∃ r0 ∈ sampleTable.rows, ∀ c ∈ catColsFE,
      (∃ s : String, sampleOutRow.get c = .str s) ∧
      sampleOutRow.get c ≠ .missing ∧
      (sampleTable.hasCol c = false → sampleOutRow.get c = .str "Unknown") ∧
      (sampleTable.hasCol c = true → sampleOutRow.get c = fillVal (r0.get c))) :=
  ⟨by decide,
    (c5_categorical_defaults 2024 sampleTable).1 "transmission" (by decide),
    sampleOutRow_mem,
    (c5_categorical_defaults 2024 sampleTable).2 sampleOutRow sampleOutRow_mem⟩

/-- A two-row table carrying all three default encoded columns. -/
def encRow1 : Row :=
  [("price", .num 1), ("fuel", .str "petrol"), ("transmission", .str "manual"),
   ("brand", .str "bmw")]

/-- Second row of the encoding sample. -/
def encRow2 : Row :=
  [("price", .num 2), ("fuel", .str "diesel"), ("transmission", .str "manual"),
   ("brand", .str "audi")]

/-- The encoding sample table. -/
def encTable : Table :=
  { cols := ["price", "fuel", "transmission", "brand"], rows := [encRow1, encRow2] }

theorem c6_witness :
    encTable.cols.Nodup ∧ "fuel" ∈ encTable.cols ∧
    "transmission" ∈ encTable.cols ∧ "brand" ∈ encTable.cols ∧
    (encode_categorical encTable defaultCatCols).cols.length
      = encTable.cols.length - 3 + totalCategories encTable defaultCatCols :=
  ⟨by decide, by decide, by decide, by decide,
    c6_encoded_column_count encTable (by decide) (by decide) (by decide) (by decide)⟩

/-- A file-system oracle on which no path exists. -/
def noFileFS : String → Bool := fun _ => false

/-- A trivial `pd.read_csv` oracle. -/
def emptyCsv : String → Table := fun _ => Table.empty

/-- A cleaner oracle that succeeds and returns its input unchanged. -/
def okCleaner : Table → Except PipeError Table := fun t => .ok t

theorem c7_witness :
    noFileFS inputCsvPath = false ∧
    load_data false (.ok Table.empty) noFileFS emptyCsv = .error .dataNotFound ∧
    mainPipeline (load_data false (.ok Table.empty) noFileFS emptyCsv)
        okCleaner 2024 = .error .dataNotFound :=
  ⟨rfl,
    (c7_missing_file_aborts (.ok Table.empty) noFileFS emptyCsv okCleaner 2024 rfl).1,
    (c7_missing_file_aborts (.ok Table.empty) noFileFS emptyCsv okCleaner 2024 rfl).2⟩

theorem c8_witness :
    (Except.ok sampleTable : Except PipeError Table) = .ok sampleTable ∧
    okCleaner sampleTable = .ok sampleTable ∧
    mainPipeline (.ok sampleTable) okCleaner 2024
      = .ok (export_train_data (encode_categorical
          (feature_engineering 2024 sampleTable) defaultCatCols)) :=
  ⟨rfl, rfl,
    (c8_fixed_order_no_partial_export (.ok sampleTable) okCleaner 2024).2.2
      sampleTable sampleTable rfl rfl⟩

theorem c9_witness :
    0 < ([sampleTable] : Heap).length ∧
    (Heap.read (feature_engineering_heap 2024 [sampleTable] 0).1 0
        = Heap.read [sampleTable] 0 ∧
      Heap.read (feature_engineering_heap 2024 [sampleTable] 0).1
          (feature_engineering_heap 2024 [sampleTable] 0).2
        = feature_engineering 2024 (Heap.read [sampleTable] 0) ∧
      Heap.read (encode_categorical_heap [sampleTable] 0 defaultCatCols).1 0
        = Heap.read [sampleTable] 0 ∧
      Heap.read (encode_categorical_heap [sampleTable] 0 defaultCatCols).1
          (encode_categorical_heap [sampleTable] 0 defaultCatCols).2
        = encode_categorical (Heap.read [sampleTable] 0) defaultCatCols) :=
  ⟨by decide,
    c9_stages_leave_input_unchanged 2024 [sampleTable] 0 defaultCatCols (by decide)⟩

theorem c10_witness :
    (∀ c ∈ defaultCatCols, ∀ r ∈ encTable.rows, r.get c ≠ .missing) ∧
    ((encode_categorical encTable defaultCatCols).rows.length
        = encTable.rows.length ∧
      (encode_categorical encTable defaultCatCols).rows
        = encTable.rows.map (fun r => dropCats defaultCatCols r
            ++ oneHotRow (fitCategories encTable defaultCatCols) r) ∧
      (∀ r ∈ encTable.rows, ∀ c ∈ defaultCatCols,
        (oneHotBlock c ((encTable.colVals c).dedup) r).countP
            (fun kv => kv.2 == Value.num 1) = 1 ∧
        ∀ kv ∈ oneHotBlock c ((encTable.colVals c).dedup) r,
          kv.2 = Value.num 1 ∨ kv.2 = Value.num 0)) :=
  ⟨by decide, c10_one_hot_within_run encTable defaultCatCols (by decide)⟩
